import Mathlib

/-!
Shallow embedding of the token-manager GUI repository
(`token_manager.py`, `gui_main.py`) and verification of its specification.

Python strings are modelled as `List Char` (`PyStr`); Python `str.strip`
becomes `pyStrip`, `str.split(sep)` becomes `pySplit`.  Python dicts holding
credentials are modelled by the structure `BToken`, whose fields carry the
values of `dict.get` with the defaults used by the code (`Option` where the
code distinguishes a missing key, the default value otherwise).  Ratios are
rationals.  The network (usage query `_do_query` and the WorkOS refresh
endpoint `refresh_token`) is a pair of oracle functions passed as parameters;
`query_usage` additionally records the trace of oracle calls it performs.
Persistence is modelled at two levels: an association-list filesystem for
`atomic_write_json` / `save_active_token` / `save_backup_tokens`, and
injected success booleans for the switching logic.
-/

namespace TokenMgr

/-- Python strings, modelled as lists of characters. -/
abbrev PyStr := List Char

/-- Whitespace predicate used by `str.strip`. -/
def isWS (c : Char) : Bool := c.isWhitespace

/-- Python `str.strip()`: drop whitespace from both ends. -/
def pyStrip (l : PyStr) : PyStr := (l.dropWhile isWS).rdropWhile isWS

/-- Fuel-driven worker for `str.split(sep)` (non-overlapping, leftmost). -/
def pySplitGo (sep : PyStr) : Nat → PyStr → PyStr → List PyStr
  | 0, acc, l => [acc.reverse ++ l]
  | _ + 1, acc, [] => [acc.reverse]
  | fuel + 1, acc, c :: rest =>
      if sep ≠ [] ∧ sep.isPrefixOf (c :: rest) then
        acc.reverse :: pySplitGo sep fuel [] ((c :: rest).drop sep.length)
      else
        pySplitGo sep fuel (c :: acc) rest

/-- Python `str.split(sep)`. -/
def pySplit (sep : PyStr) (l : PyStr) : List PyStr :=
  pySplitGo sep (l.length + 1) [] l

/-- A Reserve-Pool entry (`tokens.json` element), with the fields the code
reads: `dict.get("id")` (`none` when missing), `refresh_token` /
`access_token` (`""` default), `status` (`none` when missing), and the
last recorded usage ratio `ratioQ` (`none` when the key is absent). -/
structure BToken where
  id : Option PyStr
  refresh_token : PyStr
  access_token : PyStr
  status : Option PyStr
  ratioQ : Option ℚ
deriving DecidableEq

/-- The Active credential as returned by `load_active_token`
(keys `id`, `refresh_token`, `access_token`, all strings). -/
structure ActiveTok where
  id : PyStr
  refresh_token : PyStr
  access_token : PyStr
deriving DecidableEq

/-- The manager state the switching code manipulates: the Reserve Pool
(`tokens.json`), the Active slot (`~/.factory/auth.json`), and the
`_switch_inflight` re-entrancy flag. -/
structure MgrState where
  pool : List BToken
  active : Option ActiveTok
  inflight : Bool
deriving DecidableEq

/-- `active.get("id") if active else None` of `auto_switch_to_available_account`. -/
def activeIdOf (st : MgrState) : Option PyStr := st.active.map ActiveTok.id

/-- Eligibility key: `t.get("ratio", 0)` — an unset ratio counts as 0. -/
def eligKey (t : BToken) : ℚ := t.ratioQ.getD 0

/-- Selection key: `t.get("ratio", 1)` — an unset ratio counts as 1. -/
def selKey (t : BToken) : ℚ := t.ratioQ.getD 1

/-- `WARN_THRESHOLD = 0.9`. -/
def WARN_THRESHOLD : ℚ := mkRat 9 10

/-- The `available_tokens` filter of `auto_switch_to_available_account`:
drop the active id, keep entries with `t.get("ratio", 0) < WARN_THRESHOLD`. -/
def eligible (activeId : Option PyStr) (pool : List BToken) : List BToken :=
  pool.filter (fun t => decide (t.id ≠ activeId ∧ eligKey t < WARN_THRESHOLD))

/-- Python `min(xs, key=...)`: left fold keeping the first minimum. -/
def pyminAux (key : BToken → ℚ) (acc : BToken) : List BToken → BToken
  | [] => acc
  | x :: xs => pyminAux key (if key x < key acc then x else acc) xs

/-- The candidate chosen by `auto_switch_to_available_account`
(`min(available_tokens, key=lambda t: t.get("ratio", 1))`), `none`
when no candidate is available. -/
def selectCandidate (activeId : Option PyStr) (pool : List BToken) : Option BToken :=
  match eligible activeId pool with
  | [] => none
  | x :: xs => some (pyminAux selKey x xs)

/-! ## Usage query (`query_usage`, `token_manager.py` lines 155-173) -/

/-- The `info` dict returned by a successful `_do_query`
(keys `total`, `used`, `remain`); `none` is the empty dict of failure. -/
structure UsageInfo where
  total : ℚ
  used : ℚ
  remain : ℚ
deriving DecidableEq

/-- The payload of the WorkOS refresh endpoint as read by `query_usage`:
`result.get("access_token")` and `result.get("refresh_token")`, missing or
`None` values collapsed to `""`. -/
structure RefreshPayload where
  access_token : PyStr
  refresh_token : PyStr
deriving DecidableEq

/-- The `new_tokens` component of `query_usage`. -/
structure NewTokens where
  access_token : PyStr
  refresh_token : PyStr
deriving DecidableEq

/-- One remote call performed by `query_usage` (trace instrumentation). -/
inductive OCall where
  | usage (token : PyStr)
  | refresh (token : PyStr)
deriving DecidableEq

/-- The result triple `(ratio, info, new_tokens)` of `query_usage`. -/
abbrev QUResult := ℚ × Option UsageInfo × Option NewTokens

/-- The refresh-and-retry phase of `query_usage` (`token_manager.py`
lines 163-173): for a truthy `refresh_tok` the refresh endpoint is
consulted once, `new_at = (result.get("access_token") or "").strip()`,
`new_rt = (result.get("refresh_token") or refresh_tok or "").strip()`,
and for a non-empty `new_at` the usage query is retried once, its result
returned with the refreshed tokens when `ratio >= 0`; every remaining
path returns `(-1, {}, None)`. -/
def query_refresh_phase (doq : PyStr → ℚ × Option UsageInfo)
    (refr : PyStr → Option RefreshPayload) (refresh_tok : PyStr) :
    QUResult × List OCall :=
  if refresh_tok ≠ [] then
    match refr refresh_tok with
    | some result =>
        let new_at := pyStrip result.access_token
        let new_rt :=
          pyStrip (if result.refresh_token ≠ [] then result.refresh_token else refresh_tok)
        if new_at ≠ [] then
          let q := doq new_at
          if 0 ≤ q.1 then
            ((q.1, q.2, some ⟨new_at, new_rt⟩), [.refresh refresh_tok, .usage new_at])
          else
            ((-1, none, none), [.refresh refresh_tok, .usage new_at])
        else ((-1, none, none), [.refresh refresh_tok])
    | none => ((-1, none, none), [.refresh refresh_tok])
  else ((-1, none, none), [])

/-- `query_usage(access_token, refresh_tok)` (`token_manager.py` lines
155-173).

`doq` is the `_do_query` oracle (a failed query yields a negative first
component and no info, mirroring `return -1, {}`); `refr` is the
`refresh_token` endpoint oracle (`none` when the request fails or the
response is not JSON).  The second component of the result is the ordered
trace of remote calls made.  The initial query runs only for a truthy
`access_token` and its result is returned when `ratio >= 0`; otherwise
the refresh-and-retry phase decides the outcome. -/
def query_usage (doq : PyStr → ℚ × Option UsageInfo)
    (refr : PyStr → Option RefreshPayload)
    (access_token : PyStr) (refresh_tok : PyStr) : QUResult × List OCall :=
  if access_token ≠ [] then
    let q := doq access_token
    if 0 ≤ q.1 then ((q.1, q.2, none), [.usage access_token])
    else
      let r := query_refresh_phase doq refr refresh_tok
      (r.1, .usage access_token :: r.2)
  else query_refresh_phase doq refr refresh_tok

/-! ## Switching (`_perform_auto_switch`, `auto_switch_to_available_account`,
and the confirmed manual switch of `gui_main.py`) -/

/-- The `for i, t in enumerate(tokens): if t.get("id") == token_id` search
followed by `tokens.pop(i)`, rendered as a first-match split: returns the
entries before the match, the match, and the entries after it. -/
def findTokSplit (tid : Option PyStr) :
    List BToken → Option (List BToken × BToken × List BToken)
  | [] => none
  | t :: ts =>
      if t.id = tid then some ([], t, ts)
      else (findTokSplit tid ts).map (fun r => (t :: r.1, r.2.1, r.2.2))

/-- First-match in-place update of the demoted Active credential in the pool
(`for t in tokens: if t.get("id") == old_active["id"]: ...update...; break`);
`none` when no entry matches. -/
def syncOldAux (oa : ActiveTok) : List BToken → Option (List BToken)
  | [] => none
  | t :: ts =>
      if t.id = some oa.id then
        some ({ t with refresh_token := oa.refresh_token,
                       access_token := oa.access_token } :: ts)
      else (syncOldAux oa ts).map (fun r => t :: r)

/-- The entry inserted at the front of the pool when the demoted Active
credential was not already present (`old_active["status"] = "active";
tokens.insert(0, old_active)`). -/
def demotedTok (oa : ActiveTok) : BToken :=
  { id := some oa.id, refresh_token := oa.refresh_token,
    access_token := oa.access_token, status := some "active".data,
    ratioQ := none }

/-- Reinstate the previous Active credential into the pool: skipped when
there is no Active credential or its id is falsy (`""`); otherwise update
the matching entry in place, or insert `demotedTok` at the front. -/
def demoteOld (old : Option ActiveTok) (tokens : List BToken) : List BToken :=
  match old with
  | none => tokens
  | some oa =>
      if oa.id = [] then tokens
      else
        match syncOldAux oa tokens with
        | some ts => ts
        | none => demotedTok oa :: tokens

/-- The Active slot content written by `save_active_token(backup_token)`:
the candidate's `access_token`, `refresh_token` and `id`
(`token_info.get("id", "")`). -/
def promotedActive (bt : BToken) : ActiveTok :=
  { id := bt.id.getD [], refresh_token := bt.refresh_token,
    access_token := bt.access_token }

/-- `_perform_auto_switch(token_id)` (`token_manager.py` lines 298-352).

`saveActiveOk` injects the success of `save_active_token`; the
`save_backup_tokens` result is ignored by this function, and
`saveReserveOk` injects whether the pool write takes effect.  Aborts
(returning `False` with pool and Active slot untouched) when re-entered,
when no pool entry matches `token_id`, when the fresh ratio of the
candidate is `< 0` or `>= 1.0`, or when `save_active_token` fails; the
`finally` block leaves `_switch_inflight` false on every completed call. -/
def perform_auto_switch (doq : PyStr → ℚ × Option UsageInfo)
    (refr : PyStr → Option RefreshPayload) (saveActiveOk saveReserveOk : Bool)
    (st : MgrState) (token_id : Option PyStr) : Bool × MgrState :=
  if st.inflight then (false, st)
  else
    match findTokSplit token_id st.pool with
    | none => (false, { st with inflight := false })
    | some (before, bt, after) =>
        let q := (query_usage doq refr bt.access_token bt.refresh_token).1
        if q.1 < 0 ∨ 1 ≤ q.1 then (false, { st with inflight := false })
        else
          if saveActiveOk then
            let tokens := before ++ after
            let tokens2 := demoteOld st.active tokens
            (true, { pool := if saveReserveOk then tokens2 else st.pool,
                     active := some (promotedActive bt), inflight := false })
          else (false, { st with inflight := false })

/-- `auto_switch_to_available_account` (`token_manager.py` lines 256-296):
select the candidate via `selectCandidate` and delegate to
`perform_auto_switch` on its id. -/
def auto_switch_to_available_account (doq : PyStr → ℚ × Option UsageInfo)
    (refr : PyStr → Option RefreshPayload) (saveActiveOk saveReserveOk : Bool)
    (st : MgrState) : Bool × MgrState :=
  if st.inflight then (false, st)
  else
    match selectCandidate (activeIdOf st) st.pool with
    | none => (false, st)
    | some best => perform_auto_switch doq refr saveActiveOk saveReserveOk st best.id

/-- The pool persisted by the manual-switch `worker` before the
confirmation dialog: when `query_usage` yielded refreshed tokens
(`new_tokens`), the found entry (an alias into the loaded snapshot) gets
its `access_token` / `refresh_token` replaced and the snapshot is saved
(`saveNew` injects that write's success; on failure the file keeps the
original pool); otherwise the pool file is untouched. -/
def poolAfterRefresh (st : MgrState) (saveNew : Bool) (before : List BToken)
    (bt : BToken) (after : List BToken) (nt : Option NewTokens) : List BToken :=
  match nt with
  | some n =>
      if saveNew then
        before ++ { bt with access_token := n.access_token,
                            refresh_token := n.refresh_token } :: after
      else st.pool
  | none => st.pool

/-- The confirmed manual switch `_switch_token_async` + `worker` +
`continue_ui` of `gui_main.py` (lines 537-636), sequentialized.

`busy` stands for `_check_all_inflight or _check_selected_inflight`;
`confirmed` is the user's answer to the confirmation dialog;
`saveNew`, `saveActiveOk`, `saveReserveOk` inject the success of the three
persistence writes (the pool write after a token refresh, the Active-slot
write, and the final pool write).  The boolean result instruments whether
the switch completed (the `已切换到` path). -/
def manual_switch (doq : PyStr → ℚ × Option UsageInfo)
    (refr : PyStr → Option RefreshPayload)
    (busy confirmed saveNew saveActiveOk saveReserveOk : Bool)
    (st : MgrState) (token_id : Option PyStr) : Bool × MgrState :=
  if st.inflight ∨ busy then (false, st)
  else
    match findTokSplit token_id st.pool with
    | none => (false, st)
    | some (before, bt, after) =>
        let qr := (query_usage doq refr bt.access_token bt.refresh_token).1
        let pool1 := poolAfterRefresh st saveNew before bt after qr.2.2
        if qr.1 < 0 ∨ 1 ≤ qr.1 then (false, { st with pool := pool1, inflight := false })
        else if ¬ confirmed then (false, { st with pool := pool1, inflight := false })
        else
          match findTokSplit token_id pool1 with
          | none => (false, { st with pool := pool1, inflight := false })
          | some (before2, bt2, after2) =>
              if saveActiveOk then
                let tokens2 := demoteOld st.active (before2 ++ after2)
                (true, { pool := if saveReserveOk then tokens2 else pool1,
                         active := some (promotedActive bt2), inflight := false })
              else (false, { st with pool := pool1, inflight := false })

/-! ## Import (`do_import` inside `_import_tokens`, `gui_main.py` lines 679-703) -/

/-- The separator of an import line, `"----"`. -/
def impSep : PyStr := "----".data

/-- One iteration of the `for line in lines` loop of `do_import`, acting on
the running pool and the `added` / `skipped` counters: blank lines are
ignored; a line splitting into at least two parts yields
`rt = parts[0].strip()` and `at = parts[1].strip()`; the entry is appended
when `rt` is non-empty and no pool entry has
`(t.get("refresh_token") or "").strip() == rt`, counted as skipped when
`rt` is non-empty and a duplicate exists, and ignored otherwise. -/
def importStep (base_ts : Nat) (acc : List BToken × Nat × Nat) (line : PyStr) :
    List BToken × Nat × Nat :=
  let tokens := acc.1
  let added := acc.2.1
  let skipped := acc.2.2
  let l := pyStrip line
  if l = [] then (tokens, added, skipped)
  else
    match pySplit impSep l with
    | p0 :: p1 :: _ =>
        let rt := pyStrip p0
        let atk := pyStrip p1
        if rt ≠ [] ∧ ∀ t ∈ tokens, pyStrip t.refresh_token ≠ rt then
          (tokens ++ [{ id := some (toString (base_ts + added)).data,
                        refresh_token := rt, access_token := atk,
                        status := some "active".data, ratioQ := none }],
           added + 1, skipped)
        else if rt ≠ [] then (tokens, added, skipped + 1)
        else (tokens, added, skipped)
    | _ => (tokens, added, skipped)

/-- `do_import`: fold `importStep` over the entered lines, starting from the
loaded pool with both counters at zero; returns the final pool (then saved
via `save_backup_tokens`) and the `added` / `skipped` counters. -/
def do_import (base_ts : Nat) (tokens : List BToken) (lines : List PyStr) :
    List BToken × Nat × Nat :=
  lines.foldl (importStep base_ts) (tokens, 0, 0)

/-! ## Durable store (`atomic_write_json`, `save_backup_tokens`,
`save_active_token`) -/

/-- A JSON scalar value stored in a document field. -/
inductive JVal where
  | s (v : PyStr)
  | q (v : ℚ)
  | b (v : Bool)
  | null
deriving DecidableEq

/-- A JSON object, as an ordered association list (a Python dict). -/
abbrev Doc := List (PyStr × JVal)

/-- Python dict assignment `d[k] = v`: replace the first binding of `k`
in place, appending when absent. -/
def setKey : Doc → PyStr → JVal → Doc
  | [], k, v => [(k, v)]
  | (k0, v0) :: rest, k, v =>
      if k0 = k then (k, v) :: rest else (k0, v0) :: setKey rest k v

/-- Dict lookup `d.get(k)`. -/
def getKey (d : Doc) (k : PyStr) : Option JVal :=
  match d with
  | [] => none
  | (k0, v0) :: rest => if k0 = k then some v0 else getKey rest k

/-- A document persisted in a file: the Active document (a JSON object) or
the Reserve Pool (a JSON array of credentials). -/
inductive FsDoc where
  | obj (d : Doc)
  | arr (ts : List BToken)
deriving DecidableEq

/-- The filesystem, as a map from paths to parsed file contents. -/
abbrev FS := List (PyStr × FsDoc)

/-- Content of the file at `p`, `none` when absent. -/
def fsGet (fs : FS) (p : PyStr) : Option FsDoc :=
  match fs with
  | [] => none
  | (p0, d0) :: rest => if p0 = p then some d0 else fsGet rest p

/-- Write (or overwrite) the file at `p`. -/
def fsSet (fs : FS) (p : PyStr) (d : FsDoc) : FS :=
  match fs with
  | [] => [(p, d)]
  | (p0, d0) :: rest => if p0 = p then (p, d) :: rest else (p0, d0) :: fsSet rest p d

/-- Unlink the file at `p` (all bindings, so the map stays well defined). -/
def fsErase (fs : FS) (p : PyStr) : FS :=
  match fs with
  | [] => []
  | e :: rest => if e.1 = p then fsErase rest p else e :: fsErase rest p

/-- The temporary path used by `atomic_write_json`
(`path.with_name(f"{path.name}.tmp-...")`). -/
def tmpPath (path : PyStr) : PyStr := path ++ ".tmp".data

/-- `atomic_write_json(path, data)` (`token_manager.py` lines 35-52):
serialize to a co-located temporary path, then `os.replace` it onto the
target.  `failWrite` injects a failure while producing the temporary file
(its partial content is unlinked); `failReplace` injects a failure of the
rename (the written temporary file is unlinked).  Either failure reports
`False` and leaves the target untouched; success installs `data` at
`path` in one step and reports `True`. -/
def atomic_write_json (failWrite failReplace : Bool) (fs : FS)
    (path : PyStr) (data : FsDoc) : Bool × FS :=
  if failWrite then (false, fsErase fs (tmpPath path))
  else if failReplace then (false, fsErase (fsSet fs (tmpPath path) data) (tmpPath path))
  else (true, fsSet (fsErase fs (tmpPath path)) path data)

/-- The path of the Reserve Pool file `tokens.json`. -/
def tokensFile : PyStr := "tokens.json".data

/-- The path of the Active document `~/.factory/auth.json`. -/
def authFile : PyStr := "auth.json".data

/-- `save_backup_tokens(tokens)` (`token_manager.py` lines 74-77): calls
`atomic_write_json` on `TOKENS_FILE` and returns `None` — the success
boolean is discarded, so the caller observes only `()`. -/
def save_backup_tokens (failWrite failReplace : Bool) (fs : FS)
    (tokens : List BToken) : Unit × FS :=
  ((), (atomic_write_json failWrite failReplace fs tokensFile (.arr tokens)).2)

/-- `save_active_token(token_info)` (`token_manager.py` lines 96-112): read
the existing Active document (an absent file yields `{}`; a file that does
not hold a JSON object makes the subsequent key assignment raise, caught
as `False`), merge in `access_token`, `refresh_token` and `id`, and write
atomically, returning the write's boolean. -/
def save_active_token (failWrite failReplace : Bool) (fs : FS)
    (tok : BToken) : Bool × FS :=
  let auth0 : Option Doc :=
    match fsGet fs authFile with
    | some (.obj d) => some d
    | some (.arr _) => none
    | none => some []
  match auth0 with
  | none => (false, fs)
  | some d =>
      let d3 := setKey (setKey (setKey d "access_token".data (.s tok.access_token))
        "refresh_token".data (.s tok.refresh_token)) "id".data (.s (tok.id.getD []))
      atomic_write_json failWrite failReplace fs authFile (.obj d3)

/-! ## Specification-side predicates -/

/-- `b` is the first element of `l` attaining the minimal `key`:
it occurs at an index `i`, no element has a smaller key, and every element
before `i` has a strictly larger key.  This is the contract of Python's
`min(l, key=...)`. -/
def FirstMinAt (key : BToken → ℚ) (l : List BToken) (b : BToken) : Prop :=
  ∃ i : Nat, l.get? i = some b ∧ (∀ j y, l.get? j = some y → key b ≤ key y) ∧
    ∀ j y, j < i → l.get? j = some y → key b < key y

/-- Recognize a usage-oracle call in a `query_usage` trace. -/
def isUsageCall : OCall → Bool
  | .usage _ => true
  | .refresh _ => false

/-- Recognize a refresh-endpoint call in a `query_usage` trace. -/
def isRefreshCall : OCall → Bool
  | .usage _ => false
  | .refresh _ => true

/-- The ids present across {Active slot ∪ Reserve Pool}, with multiplicity. -/
def allIds (st : MgrState) : List (Option PyStr) :=
  (match st.active with
   | some a => [some a.id]
   | none => []) ++ st.pool.map BToken.id

/-- No two pool entries share the same non-empty `refresh_token`
(exact string match). -/
def GoodPool (tokens : List BToken) : Prop :=
  tokens.Pairwise (fun a b => a.refresh_token = b.refresh_token → a.refresh_token = [])

/-! ## Concrete fixtures (the spec's scenarios) -/

/-- Scenario credential `{id:"1", ratio:0.95}`. -/
def scenTok1 : BToken :=
  { id := some "1".data, refresh_token := [], access_token := [],
    status := none, ratioQ := some (mkRat 95 100) }

/-- Scenario credential `{id:"2", ratio:0.3}`. -/
def scenTok2 : BToken :=
  { id := some "2".data, refresh_token := [], access_token := [],
    status := none, ratioQ := some (mkRat 3 10) }

/-- Scenario credential `{id:"3", ratio:unset}`. -/
def scenTok3 : BToken :=
  { id := some "3".data, refresh_token := [], access_token := [],
    status := none, ratioQ := none }

/-- The Reserve Pool of the `AutoFailover` scenario. -/
def scenPool : List BToken := [scenTok1, scenTok2, scenTok3]

/-- A `_do_query` oracle that always fails (`return -1, {}`). -/
def doqFail : PyStr → ℚ × Option UsageInfo := fun _ => (-1, none)

/-- A refresh oracle that always yields fresh tokens. -/
def refrOk : PyStr → Option RefreshPayload :=
  fun _ => some ⟨"NEWAT".data, "NEWRT".data⟩

/-- A refresh oracle that always fails. -/
def refrNone : PyStr → Option RefreshPayload := fun _ => none

/-! ## Lemmas about the string and list primitives -/

open List in
theorem pyStrip_idem (l : PyStr) : pyStrip (pyStrip l) = pyStrip l := by
  unfold pyStrip
  set s := (l.dropWhile isWS).rdropWhile isWS with hs
  have hdrop : s.dropWhile isWS = s := by
    rcases hpre : s with _ | ⟨a, as⟩
    · rfl
    · have hp : a :: as <+: l.dropWhile isWS := by
        rw [← hpre, hs]
        exact rdropWhile_prefix _ _
      obtain ⟨t, ht⟩ := hp
      have h2 : l.dropWhile isWS = a :: (as ++ t) := ht.symm
      have hne : l.dropWhile isWS ≠ [] := by
        rw [h2]
        simp
      have hhead : isWS ((l.dropWhile isWS).head hne) = false :=
        head_dropWhile_not _ _ _
      have hha : (l.dropWhile isWS).head hne = a := by
        simp [h2]
      rw [hha] at hhead
      simp [List.dropWhile_cons, hhead]
  rw [hdrop, hs, rdropWhile_idempotent]

theorem pyminAux_firstMin (key : BToken → ℚ) (xs : List BToken) (acc : BToken) :
    FirstMinAt key (acc :: xs) (pyminAux key acc xs) := by
  induction xs generalizing acc with
  | nil =>
      refine ⟨0, rfl, ?_, ?_⟩
      · intro j y hy
        match j, hy with
        | 0, hy =>
            have hya : y = acc := by simpa using hy.symm
            subst hya
            exact le_of_eq rfl
        | j + 1, hy => simp [List.get?] at hy
      · intro j y hj hy
        omega
  | cons x xs ih =>
      show FirstMinAt key (acc :: x :: xs) (pyminAux key (if key x < key acc then x else acc) xs)
      by_cases hx : key x < key acc
      · rw [if_pos hx]
        obtain ⟨i, hi, hmin, hbefore⟩ := ih x
        refine ⟨i + 1, hi, ?_, ?_⟩
        · intro j y hy
          match j, hy with
          | 0, hy =>
              cases hy
              exact le_of_lt (lt_of_le_of_lt (hmin 0 x rfl) hx)
          | j + 1, hy => exact hmin j y hy
        · intro j y hj hy
          match j, hy with
          | 0, hy =>
              cases hy
              exact lt_of_le_of_lt (hmin 0 x rfl) hx
          | j + 1, hy => exact hbefore j y (by omega) hy
      · rw [if_neg hx]
        obtain ⟨i, hi, hmin, hbefore⟩ := ih acc
        have hax : key acc ≤ key x := le_of_not_lt hx
        match i, hi with
        | 0, hi =>
            refine ⟨0, hi, ?_, ?_⟩
            · intro j y hy
              match j, hy with
              | 0, hy => cases hy; exact hmin 0 acc rfl
              | 1, hy => cases hy; exact le_trans (hmin 0 acc rfl) hax
              | j + 2, hy => exact hmin (j + 1) y hy
            · intro j y hj hy
              omega
        | i + 1, hi =>
            refine ⟨i + 2, hi, ?_, ?_⟩
            · intro j y hy
              match j, hy with
              | 0, hy => cases hy; exact hmin 0 acc rfl
              | 1, hy => cases hy; exact le_trans (hmin 0 acc rfl) hax
              | j + 2, hy => exact hmin (j + 1) y hy
            · intro j y hj hy
              match j, hy with
              | 0, hy =>
                  cases hy
                  exact hbefore 0 acc (by omega) rfl
              | 1, hy =>
                  cases hy
                  exact lt_of_lt_of_le (hbefore 0 acc (by omega) rfl) hax
              | j + 2, hy => exact hbefore (j + 1) y (by omega) hy

/-! ## Selection lemmas -/

theorem select_firstMin {activeId : Option PyStr} {pool : List BToken} {b : BToken}
    (h : selectCandidate activeId pool = some b) :
    FirstMinAt selKey (eligible activeId pool) b := by
  unfold selectCandidate at h
  rcases he : eligible activeId pool with _ | ⟨x, xs⟩ <;> rw [he] at h
  · cases h
  · injection h with h
    subst h
    exact pyminAux_firstMin selKey xs x

theorem mem_eligible_iff {activeId : Option PyStr} {pool : List BToken} {t : BToken} :
    t ∈ eligible activeId pool ↔
      t ∈ pool ∧ t.id ≠ activeId ∧ eligKey t < WARN_THRESHOLD := by
  simp [eligible, List.mem_filter, and_assoc]

theorem firstMinAt_mem {key : BToken → ℚ} {l : List BToken} {b : BToken}
    (h : FirstMinAt key l b) : b ∈ l := by
  obtain ⟨i, hi, _, _⟩ := h
  exact List.get?_mem hi

theorem firstMinAt_le_of_mem {key : BToken → ℚ} {l : List BToken} {b t : BToken}
    (h : FirstMinAt key l b) (ht : t ∈ l) : key b ≤ key t := by
  obtain ⟨i, _, hmin, _⟩ := h
  obtain ⟨j, hj⟩ := List.mem_iff_get?.mp ht
  exact hmin j t hj

/-! ## Claim theorems: selection (C1, C10, C4) -/

/-- Claim C1, counterexample: on the spec's scenario pool
`[{id:"1",ratio:0.95},{id:"2",ratio:0.3},{id:"3",ratio:unset}]` with active
id `"0"`, `auto_switch_to_available_account` selects the credential with id
`"2"`, not `"3"` as the claim states: at selection time an unset ratio is
keyed `t.get("ratio", 1)`, i.e. least preferred. -/
theorem C1_counterexample :
    (selectCandidate (some "0".data) scenPool).map BToken.id = some (some "2".data) ∧
    (selectCandidate (some "0".data) scenPool).map BToken.id ≠ some (some "3".data) := by
  decide

/-- Claim C1 (amended): among eligible candidates (id differing from the
active id, last-known ratio below 0.9 with unset treated as 0),
`auto_switch_to_available_account` picks the candidate minimizing
`t.get("ratio", 1)` — an unset ratio sorts as 1, least preferred — with
ties broken by pool order; on the scenario pool with active id `"0"` it
picks `"2"`. -/
theorem C1_theorem :
    (∀ activeId pool b, selectCandidate activeId pool = some b →
        FirstMinAt selKey (eligible activeId pool) b) ∧
    (selectCandidate (some "0".data) scenPool).map BToken.id = some (some "2".data) :=
  ⟨fun _ _ _ h => select_firstMin h, by decide⟩

/-- Witness for C1: the selected candidate of the scenario pool is the
first minimum of the eligible list. -/
theorem C1_witness :
    FirstMinAt selKey (eligible (some "0".data) scenPool) scenTok2 :=
  C1_theorem.1 (some "0".data) scenPool scenTok2 (by decide)

/-- Claim C10: a reserve credential with recorded ratio `-1` passes the
eligibility filter and, the chosen candidate having minimal key, the
selection's key is at most `-1`, strictly below the key of every candidate
with a known ratio in `[0, 1)`; a credential with no recorded ratio is
ranked with key `1` at selection time, strictly above every such known
ratio. -/
theorem C10_theorem :
    (∀ activeId pool t, t ∈ pool → t.id ≠ activeId → t.ratioQ = some (-1) →
        t ∈ eligible activeId pool ∧
        ∀ b, selectCandidate activeId pool = some b →
          selKey b ≤ -1 ∧ ∀ u r, u.ratioQ = some r → 0 ≤ r → selKey b < selKey u) ∧
    (∀ t, t.ratioQ = none → selKey t = 1) ∧
    (∀ t u r, t.ratioQ = none → u.ratioQ = some r → 0 ≤ r → r < 1 →
        selKey u < selKey t) := by
  refine ⟨?_, ?_, ?_⟩
  · intro activeId pool t ht hid hr
    have hkt : selKey t = -1 := by rw [selKey, hr]; rfl
    have hmem : t ∈ eligible activeId pool := by
      rw [mem_eligible_iff]
      refine ⟨ht, hid, ?_⟩
      rw [eligKey, hr]
      decide
    refine ⟨hmem, ?_⟩
    intro b hb
    have hle : selKey b ≤ -1 := hkt ▸ firstMinAt_le_of_mem (select_firstMin hb) hmem
    refine ⟨hle, ?_⟩
    intro u r hur hr0
    have hku : selKey u = r := by rw [selKey, hur]; rfl
    rw [hku]
    have hneg : (-1 : ℚ) < 0 := by decide
    linarith
  · intro t h
    rw [selKey, h]
    rfl
  · intro t u r ht hu h0 h1
    have hkt : selKey t = 1 := by rw [selKey, ht]; rfl
    have hku : selKey u = r := by rw [selKey, hu]; rfl
    rw [hkt, hku]
    exact h1

/-- A reserve credential whose last query failed (`ratio = -1`). -/
def scenTokNeg : BToken :=
  { id := some "9".data, refresh_token := [], access_token := [],
    status := none, ratioQ := some (-1) }

/-- A pool containing a failed-query credential. -/
def poolNeg : List BToken := [scenTok1, scenTokNeg, scenTok3]

/-- Witness for C10: on a pool holding a `ratio = -1` credential, that
credential is eligible, the selection key is at most `-1`, and it beats
the `0.95` credential. -/
theorem C10_witness :
    scenTokNeg ∈ eligible (some "0".data) poolNeg ∧
    selKey scenTokNeg ≤ -1 ∧
    selKey scenTokNeg < selKey scenTok1 := by
  have h := C10_theorem.1 (some "0".data) poolNeg scenTokNeg (by decide) (by decide) rfl
  have h2 := h.2 scenTokNeg (by decide)
  exact ⟨h.1, h2.1, h2.2 scenTok1 (mkRat 95 100) rfl (by decide)⟩

/-- Claim C4: the selection of `auto_switch_to_available_account` never
returns a candidate whose recorded ratio is at or above `WARN_THRESHOLD`
(0.9), and `_perform_auto_switch` aborts — reporting `False` with the
Active slot and the Reserve Pool untouched — whenever the freshly queried
ratio of the candidate is below 0 or at/above 1.0. -/
theorem C4_theorem :
    (∀ activeId pool b, selectCandidate activeId pool = some b →
        eligKey b < WARN_THRESHOLD ∧ ∀ r, b.ratioQ = some r → r < WARN_THRESHOLD) ∧
    (∀ doq refr sA sR st tid before bt after,
        st.inflight = false →
        findTokSplit tid st.pool = some (before, bt, after) →
        ((query_usage doq refr bt.access_token bt.refresh_token).1.1 < 0 ∨
          1 ≤ (query_usage doq refr bt.access_token bt.refresh_token).1.1) →
        perform_auto_switch doq refr sA sR st tid = (false, st)) := by
  constructor
  · intro activeId pool b hb
    have hmem := firstMinAt_mem (select_firstMin hb)
    have helig := (mem_eligible_iff.mp hmem).2.2
    refine ⟨helig, ?_⟩
    intro r hr
    rw [eligKey, hr] at helig
    exact helig
  · intro doq refr sA sR st tid before bt after hin hfind hbad
    obtain ⟨pool, active, infl⟩ := st
    simp only [MgrState.inflight] at hin
    subst hin
    simp only [perform_auto_switch, findTokSplit, Bool.false_eq_true, if_false, hfind]
    simp [hbad]

/-- The manager state of the abort witness: the scenario pool, no Active
credential, no switch in flight. -/
def stA : MgrState := { pool := scenPool, active := none, inflight := false }

/-- Witness for C4: the scenario selection's candidate has recorded ratio
0.3 below the threshold, and with an always-failing usage oracle the
promotion of `"1"` aborts leaving the state unchanged. -/
theorem C4_witness :
    (eligKey scenTok2 < WARN_THRESHOLD ∧ mkRat 3 10 < WARN_THRESHOLD) ∧
    perform_auto_switch doqFail refrOk true true stA (some "1".data) = (false, stA) := by
  constructor
  · have h := C4_theorem.1 (some "0".data) scenPool scenTok2 (by decide)
    exact ⟨h.1, h.2 (mkRat 3 10) rfl⟩
  · exact C4_theorem.2 doqFail refrOk true true stA (some "1".data)
      [] scenTok1 [scenTok2, scenTok3] rfl (by decide) (by decide)

/-! ## Claim theorems: usage query (C5, C2) -/

theorem query_refresh_phase_spec (doq : PyStr → ℚ × Option UsageInfo)
    (refr : PyStr → Option RefreshPayload) (rt : PyStr) :
    ((query_refresh_phase doq refr rt).2.countP isRefreshCall ≤ 1 ∧
      (query_refresh_phase doq refr rt).2.countP isUsageCall ≤ 1) ∧
    (∀ t, OCall.usage t ∈ (query_refresh_phase doq refr rt).2 →
      ∃ p, refr rt = some p ∧ t = pyStrip p.access_token) ∧
    ((rt = [] ∨ ∀ p, refr rt = some p →
        pyStrip p.access_token = [] ∨ (doq (pyStrip p.access_token)).1 < 0) →
      (query_refresh_phase doq refr rt).1 = (-1, none, none)) := by
  by_cases hrt : rt = []
  · have heq : query_refresh_phase doq refr rt = ((-1, none, none), []) := by
      simp [query_refresh_phase, hrt]
    rw [heq]
    exact ⟨⟨by simp, by simp⟩, fun t ht => by simp at ht, fun _ => rfl⟩
  · rcases hre : refr rt with _ | p
    · have heq : query_refresh_phase doq refr rt = ((-1, none, none), [.refresh rt]) := by
        simp [query_refresh_phase, hrt, hre]
      rw [heq]
      refine ⟨⟨?_, ?_⟩, fun t ht => ?_, fun _ => rfl⟩
      · simp [List.countP_cons, isRefreshCall]
      · simp [List.countP_cons, isUsageCall]
      · simp [isUsageCall] at ht
    · by_cases hat : pyStrip p.access_token = []
      · have heq : query_refresh_phase doq refr rt = ((-1, none, none), [.refresh rt]) := by
          simp [query_refresh_phase, hrt, hre, hat]
        rw [heq]
        refine ⟨⟨?_, ?_⟩, fun t ht => ?_, fun _ => rfl⟩
        · simp [List.countP_cons, isRefreshCall]
        · simp [List.countP_cons, isUsageCall]
        · simp [isUsageCall] at ht
      · by_cases hq : 0 ≤ (doq (pyStrip p.access_token)).1
        · have heq : query_refresh_phase doq refr rt =
              (((doq (pyStrip p.access_token)).1, (doq (pyStrip p.access_token)).2,
                some ⟨pyStrip p.access_token,
                  pyStrip (if p.refresh_token ≠ [] then p.refresh_token else rt)⟩),
               [.refresh rt, .usage (pyStrip p.access_token)]) := by
            simp [query_refresh_phase, hrt, hre, hat, hq]
          rw [heq]
          refine ⟨⟨?_, ?_⟩, fun t ht => ?_, fun hc => ?_⟩
          · simp [List.countP_cons, isRefreshCall, isUsageCall]
          · simp [List.countP_cons, isRefreshCall, isUsageCall]
          · rcases List.mem_cons.mp ht with h0 | h0
            · cases h0
            · have h1 : t = pyStrip p.access_token := by
                rcases List.mem_cons.mp h0 with h2 | h2
                · injection h2
                · simp at h2
              exact ⟨p, rfl, h1⟩
          · rcases hc with hc | hc
            · exact absurd hc hrt
            · rcases hc p rfl with h2 | h2
              · exact absurd h2 hat
              · exact absurd h2 (not_lt.mpr hq)
        · have heq : query_refresh_phase doq refr rt =
              ((-1, none, none), [.refresh rt, .usage (pyStrip p.access_token)]) := by
            simp [query_refresh_phase, hrt, hre, hat, not_le.mp hq]
          rw [heq]
          refine ⟨⟨?_, ?_⟩, fun t ht => ?_, fun _ => rfl⟩
          · simp [List.countP_cons, isRefreshCall, isUsageCall]
          · simp [List.countP_cons, isRefreshCall, isUsageCall]
          · rcases List.mem_cons.mp ht with h0 | h0
            · cases h0
            · have h1 : t = pyStrip p.access_token := by
                rcases List.mem_cons.mp h0 with h2 | h2
                · injection h2
                · simp at h2
              exact ⟨p, rfl, h1⟩

/-- Claim C5: for every `query_usage` call whose initial usage query fails
(empty access token or a negative ratio from the oracle), the refresh
endpoint is called at most once, at most two usage queries are made (the
initial one plus at most one retry), every usage query is on the original
access token or on the refreshed access token, and when the retry also
fails — or no non-empty refresh token was available — the overall result
is exactly `(-1, {}, None)`. -/
theorem C5_theorem (doq : PyStr → ℚ × Option UsageInfo)
    (refr : PyStr → Option RefreshPayload) (a rt : PyStr)
    (h : a = [] ∨ (doq a).1 < 0) :
    ((query_usage doq refr a rt).2.countP isRefreshCall ≤ 1 ∧
      (query_usage doq refr a rt).2.countP isUsageCall ≤ 2) ∧
    (∀ t, OCall.usage t ∈ (query_usage doq refr a rt).2 →
      t = a ∨ ∃ p, refr rt = some p ∧ t = pyStrip p.access_token) ∧
    ((rt = [] ∨ ∀ p, refr rt = some p →
        pyStrip p.access_token = [] ∨ (doq (pyStrip p.access_token)).1 < 0) →
      (query_usage doq refr a rt).1 = (-1, none, none)) := by
  obtain ⟨⟨hc1, hc2⟩, hmem, hfail⟩ := query_refresh_phase_spec doq refr rt
  by_cases ha : a = []
  · have heq : query_usage doq refr a rt = query_refresh_phase doq refr rt := by
      simp [query_usage, ha]
    rw [heq]
    exact ⟨⟨hc1, le_trans hc2 (by omega)⟩, fun t ht => Or.inr (hmem t ht), hfail⟩
  · have hlt : (doq a).1 < 0 := h.resolve_left ha
    have heq : query_usage doq refr a rt =
        ((query_refresh_phase doq refr rt).1,
          .usage a :: (query_refresh_phase doq refr rt).2) := by
      simp [query_usage, ha, not_le.mpr hlt]
    rw [heq]
    refine ⟨⟨?_, ?_⟩, fun t ht => ?_, hfail⟩
    · simpa [List.countP_cons, isRefreshCall] using hc1
    · simp only [List.countP_cons, isUsageCall, if_true]
      omega
    · rcases List.mem_cons.mp ht with h0 | h0
      · left
        injection h0
      · exact Or.inr (hmem t h0)

/-- Witness for C5: with an always-failing usage oracle and a failing
refresh endpoint, at most one refresh call and at most two usage calls
are made and the result is exactly `(-1, {}, None)`. -/
theorem C5_witness :
    ((query_usage doqFail refrNone "AT".data "RT".data).2.countP isRefreshCall ≤ 1 ∧
      (query_usage doqFail refrNone "AT".data "RT".data).2.countP isUsageCall ≤ 2) ∧
    (query_usage doqFail refrNone "AT".data "RT".data).1 = (-1, none, none) := by
  have h := C5_theorem doqFail refrNone "AT".data "RT".data (Or.inr (by decide))
  exact ⟨h.1, h.2.2 (Or.inr (fun p hp => Option.noConfusion hp))⟩

/-- Claim C2, counterexample: the initial query fails, the refresh
endpoint succeeds (non-empty fresh access token), the retried query fails
— and `query_usage` surfaces NO refreshed tokens to the caller: the
`refreshedTokens` component of the result is `None`. -/
theorem C2_counterexample :
    refrOk "RT".data = some ⟨"NEWAT".data, "NEWRT".data⟩ ∧
    (doqFail "AT".data).1 < 0 ∧
    (doqFail "NEWAT".data).1 < 0 ∧
    (query_usage doqFail refrOk "AT".data "RT".data).1.2.2 = none := by
  decide

/-- Claim C2 (amended): when the initial usage query fails, the refresh
succeeds with a non-empty fresh access token, and the retried usage query
with that token also fails, `query_usage` returns exactly `(-1, {}, None)`
— the successful refresh is discarded, not surfaced via refreshed
tokens. -/
theorem C2_theorem (doq : PyStr → ℚ × Option UsageInfo)
    (refr : PyStr → Option RefreshPayload) (a rt : PyStr) (p : RefreshPayload)
    (h : a = [] ∨ (doq a).1 < 0) (hre : refr rt = some p)
    (hat : pyStrip p.access_token ≠ [])
    (hq : (doq (pyStrip p.access_token)).1 < 0) :
    (query_usage doq refr a rt).1 = (-1, none, none) ∧
    (query_usage doq refr a rt).1.2.2 = none := by
  obtain ⟨_, _, hfail⟩ := query_refresh_phase_spec doq refr rt
  have hcond : rt = [] ∨ ∀ p', refr rt = some p' →
      pyStrip p'.access_token = [] ∨ (doq (pyStrip p'.access_token)).1 < 0 := by
    refine Or.inr (fun p' hp' => ?_)
    rw [hre] at hp'
    injection hp' with e
    subst e
    exact Or.inr hq
  have hres := hfail hcond
  by_cases ha : a = []
  · have heq : query_usage doq refr a rt = query_refresh_phase doq refr rt := by
      simp [query_usage, ha]
    rw [heq, hres]
    exact ⟨rfl, rfl⟩
  · have hlt : (doq a).1 < 0 := h.resolve_left ha
    have heq : (query_usage doq refr a rt).1 = (query_refresh_phase doq refr rt).1 := by
      simp [query_usage, ha, not_le.mpr hlt]
    rw [heq, hres]
    exact ⟨rfl, rfl⟩

/-- Witness for C2: the concrete failing retry after a successful refresh
yields `(-1, {}, None)`. -/
theorem C2_witness :
    (query_usage doqFail refrOk "AT".data "RT".data).1 = (-1, none, none) ∧
    (query_usage doqFail refrOk "AT".data "RT".data).1.2.2 = none :=
  C2_theorem doqFail refrOk "AT".data "RT".data ⟨"NEWAT".data, "NEWRT".data⟩
    (Or.inr (by decide)) rfl (by decide) (by decide)

/-! ## Switching lemmas (towards C3, C7) -/

theorem findTokSplit_eq {tid : Option PyStr} {l b : List BToken} {x : BToken}
    {a : List BToken} (h : findTokSplit tid l = some (b, x, a)) :
    l = b ++ x :: a ∧ x.id = tid := by
  induction l generalizing b with
  | nil => cases h
  | cons t ts ih =>
      simp only [findTokSplit] at h
      by_cases ht : t.id = tid
      · rw [if_pos ht] at h
        injection h with h
        cases h
        exact ⟨rfl, ht⟩
      · rw [if_neg ht] at h
        rcases hr : findTokSplit tid ts with _ | r <;> rw [hr] at h
        · cases h
        · obtain ⟨r1, r2, r3⟩ := r
          simp only [Option.map_some'] at h
          injection h with h
          cases h
          obtain ⟨he, hid⟩ := ih hr
          exact ⟨by rw [he]; rfl, hid⟩

theorem syncOldAux_none_of {oa : ActiveTok} {l : List BToken}
    (h : ∀ t ∈ l, t.id ≠ some oa.id) : syncOldAux oa l = none := by
  induction l with
  | nil => rfl
  | cons t ts ih =>
      simp only [syncOldAux, if_neg (h t (List.mem_cons_self t ts))]
      rw [ih (fun u hu => h u (List.mem_cons_of_mem t hu))]
      rfl

theorem demoteOld_not_found {oa : ActiveTok} {l : List BToken} (hne : oa.id ≠ [])
    (h : ∀ t ∈ l, t.id ≠ some oa.id) :
    demoteOld (some oa) l = demotedTok oa :: l := by
  simp only [demoteOld, if_neg hne, syncOldAux_none_of h]

theorem poolAfterRefresh_map_id (st : MgrState) (saveNew : Bool)
    (before : List BToken) (bt : BToken) (after : List BToken)
    (nt : Option NewTokens) (hp : st.pool = before ++ bt :: after) :
    (poolAfterRefresh st saveNew before bt after nt).map BToken.id =
      st.pool.map BToken.id := by
  rcases nt with _ | n
  · rfl
  · rcases saveNew with _ | _
    · rfl
    · simp [poolAfterRefresh, hp]

theorem promote_ids_spec (oa : ActiveTok) (bt : BToken) (before after : List BToken)
    (ctid : PyStr) (hbtid : bt.id = some ctid) (hne : oa.id ≠ [])
    (hdist : ∀ i : Option PyStr, i.isSome = true →
      (some oa.id :: (before ++ bt :: after).map BToken.id).count i ≤ 1) :
    (some ctid :: (demoteOld (some oa) (before ++ after)).map BToken.id).count
        (some ctid) = 1 ∧
    (some ctid :: (demoteOld (some oa) (before ++ after)).map BToken.id).count
        (some oa.id) = 1 ∧
    ∀ i : Option PyStr, i.isSome = true →
      (some ctid :: (demoteOld (some oa) (before ++ after)).map BToken.id).count
        i ≤ 1 := by
  have hct := hdist (some ctid) rfl
  have hoa := hdist (some oa.id) rfl
  rw [List.map_append, List.map_cons, hbtid] at hct hoa
  simp only [List.count_cons, List.count_append, beq_iff_eq, eq_self_iff_true,
    if_true] at hct hoa
  have hoc : (some oa.id : Option PyStr) ≠ some ctid := by
    intro h
    rw [if_pos h] at hct
    omega
  rw [if_neg hoc] at hct
  rw [if_neg (Ne.symm hoc)] at hoa
  have hb1 : (before.map BToken.id).count (some oa.id) = 0 := by omega
  have ha1 : (after.map BToken.id).count (some oa.id) = 0 := by omega
  have hnotin : ∀ t ∈ before ++ after, t.id ≠ some oa.id := by
    intro t htmem heq
    rcases List.mem_append.mp htmem with hm | hm
    · have hcnt : (some oa.id : Option PyStr) ∈ before.map BToken.id :=
        List.mem_map.mpr ⟨t, hm, heq⟩
      rw [← List.count_pos_iff] at hcnt
      omega
    · have hcnt : (some oa.id : Option PyStr) ∈ after.map BToken.id :=
        List.mem_map.mpr ⟨t, hm, heq⟩
      rw [← List.count_pos_iff] at hcnt
      omega
  rw [demoteOld_not_found hne hnotin]
  have hdemid : (demotedTok oa).id = some oa.id := rfl
  refine ⟨?_, ?_, ?_⟩
  · simp only [List.map_cons, List.count_cons, List.map_append, List.count_append,
      hdemid, beq_iff_eq, eq_self_iff_true, if_true]
    rw [if_neg hoc]
    omega
  · simp only [List.map_cons, List.count_cons, List.map_append, List.count_append,
      hdemid, beq_iff_eq, eq_self_iff_true, if_true]
    rw [if_neg (Ne.symm hoc)]
    omega
  · intro i hi
    have hgen := hdist i hi
    rw [List.map_append, List.map_cons, hbtid] at hgen
    simp only [List.count_cons, List.count_append, beq_iff_eq] at hgen
    simp only [List.map_cons, List.count_cons, List.map_append, List.count_append,
      hdemid, beq_iff_eq]
    by_cases h1 : (some ctid : Option PyStr) = i
    · rw [if_pos h1]
      rw [if_pos h1] at hgen
      by_cases h2 : (some oa.id : Option PyStr) = i
      · exact absurd (h2.trans h1.symm) hoc
      · rw [if_neg h2]
        omega
    · rw [if_neg h1]
      rw [if_neg h1] at hgen
      by_cases h2 : (some oa.id : Option PyStr) = i
      · rw [if_pos h2]
        rw [if_pos h2] at hgen
        omega
      · rw [if_neg h2]
        rw [if_neg h2] at hgen
        omega

theorem perform_switch_id_invariant (doq : PyStr → ℚ × Option UsageInfo)
    (refr : PyStr → Option RefreshPayload) (sA : Bool) (st : MgrState)
    (tid : Option PyStr) (oa : ActiveTok) (ctid : PyStr)
    (hactive : st.active = some oa) (hne : oa.id ≠ []) (htid : tid = some ctid)
    (hdist : ∀ i : Option PyStr, i.isSome = true → (allIds st).count i ≤ 1)
    (hp : (perform_auto_switch doq refr sA true st tid).1 = true) :
    (allIds (perform_auto_switch doq refr sA true st tid).2).count (some ctid) = 1 ∧
    (allIds (perform_auto_switch doq refr sA true st tid).2).count (some oa.id) = 1 ∧
    ∀ i : Option PyStr, i.isSome = true →
      (allIds (perform_auto_switch doq refr sA true st tid).2).count i ≤ 1 := by
  cases hin : st.inflight with
  | true => simp [perform_auto_switch, hin] at hp
  | false =>
  rcases hfind : findTokSplit tid st.pool with _ | ⟨before, bt, after⟩
  · simp [perform_auto_switch, hin, hfind] at hp
  · obtain ⟨hpool, hbtid⟩ := findTokSplit_eq hfind
    rw [htid] at hbtid
    by_cases hq : ((query_usage doq refr bt.access_token bt.refresh_token).1.1 < 0 ∨
        1 ≤ (query_usage doq refr bt.access_token bt.refresh_token).1.1)
    · simp [perform_auto_switch, hin, hfind, hq] at hp
    · cases hsA : sA with
      | false => simp [perform_auto_switch, hin, hfind, hq, hsA] at hp
      | true =>
        have heq : perform_auto_switch doq refr true true st tid =
            (true, { pool := demoteOld st.active (before ++ after),
                     active := some (promotedActive bt), inflight := false }) := by
          simp [perform_auto_switch, hin, hfind, hq]
        rw [heq]
        have hall : allIds ({ pool := demoteOld st.active (before ++ after),
                              active := some (promotedActive bt),
                              inflight := false } : MgrState) =
            some ctid :: (demoteOld (some oa) (before ++ after)).map BToken.id := by
          simp [allIds, promotedActive, hbtid, hactive]
        rw [hall]
        have hdist2 : ∀ i : Option PyStr, i.isSome = true →
            (some oa.id :: (before ++ bt :: after).map BToken.id).count i ≤ 1 := by
          intro i hi
          have hii := hdist i hi
          rw [allIds, hactive, hpool] at hii
          exact hii
        exact promote_ids_spec oa bt before after ctid hbtid hne hdist2

theorem manual_switch_id_invariant (doq : PyStr → ℚ × Option UsageInfo)
    (refr : PyStr → Option RefreshPayload) (busy confirmed saveNew sA : Bool)
    (st : MgrState) (tid : Option PyStr) (oa : ActiveTok) (ctid : PyStr)
    (hactive : st.active = some oa) (hne : oa.id ≠ []) (htid : tid = some ctid)
    (hdist : ∀ i : Option PyStr, i.isSome = true → (allIds st).count i ≤ 1)
    (hp : (manual_switch doq refr busy confirmed saveNew sA true st tid).1 = true) :
    (allIds (manual_switch doq refr busy confirmed saveNew sA true st tid).2).count
      (some ctid) = 1 ∧
    (allIds (manual_switch doq refr busy confirmed saveNew sA true st tid).2).count
      (some oa.id) = 1 ∧
    ∀ i : Option PyStr, i.isSome = true →
      (allIds (manual_switch doq refr busy confirmed saveNew sA true st tid).2).count
        i ≤ 1 := by
  by_cases hib : (st.inflight ∨ busy)
  · simp [manual_switch, hib] at hp
  · rcases hfind : findTokSplit tid st.pool with _ | ⟨before, bt, after⟩
    · simp [manual_switch, hib, hfind] at hp
    · obtain ⟨hpool, hbtid⟩ := findTokSplit_eq hfind
      rw [htid] at hbtid
      by_cases hq : ((query_usage doq refr bt.access_token bt.refresh_token).1.1 < 0 ∨
          1 ≤ (query_usage doq refr bt.access_token bt.refresh_token).1.1)
      · simp [manual_switch, hib, hfind, hq] at hp
      · cases hconf : confirmed with
        | false => simp [manual_switch, hib, hfind, hq, hconf] at hp
        | true =>
          rcases hfind2 : findTokSplit tid (poolAfterRefresh st saveNew before bt after
              (query_usage doq refr bt.access_token bt.refresh_token).1.2.2)
            with _ | ⟨b2, x2, a2⟩
          · simp [manual_switch, hib, hfind, hq, hconf, hfind2] at hp
          · obtain ⟨hpool2, hxid⟩ := findTokSplit_eq hfind2
            rw [htid] at hxid
            cases hsA : sA with
            | false => simp [manual_switch, hib, hfind, hq, hconf, hfind2, hsA] at hp
            | true =>
              have heq : manual_switch doq refr busy true saveNew true true st tid =
                  (true, { pool := demoteOld st.active (b2 ++ a2),
                           active := some (promotedActive x2), inflight := false }) := by
                simp [manual_switch, hib, hfind, hq, hfind2]
              rw [heq]
              have hall : allIds ({ pool := demoteOld st.active (b2 ++ a2),
                                    active := some (promotedActive x2),
                                    inflight := false } : MgrState) =
                  some ctid :: (demoteOld (some oa) (b2 ++ a2)).map BToken.id := by
                simp [allIds, promotedActive, hxid, hactive]
              rw [hall]
              have hmap : (b2 ++ x2 :: a2).map BToken.id = st.pool.map BToken.id := by
                rw [← hpool2]
                exact poolAfterRefresh_map_id st saveNew before bt after _ hpool
              have hdist2 : ∀ i : Option PyStr, i.isSome = true →
                  (some oa.id :: (b2 ++ x2 :: a2).map BToken.id).count i ≤ 1 := by
                intro i hi
                have hii := hdist i hi
                rw [allIds, hactive] at hii
                rw [hmap]
                exact hii
              exact promote_ids_spec oa x2 b2 a2 ctid hxid hne hdist2

/-- Claim C3: starting from a state where each id occurs at most once
across {Active slot ∪ Reserve Pool}, with an Active credential holding a
non-empty id, and assuming the persistence writes succeed, every completed
promotion — automatic (`_perform_auto_switch`) or confirmed manual
(`_switch_token_async`) — leaves exactly one credential carrying the
promoted candidate's id and exactly one carrying the demoted previous
Active's id across {Active slot ∪ Reserve Pool}, and every id still occurs
at most once (so no credential sits in both locations at once). -/
theorem C3_theorem :
    (∀ doq refr sA st tid oa ctid,
      st.active = some oa → oa.id ≠ [] → tid = some ctid →
      (∀ i : Option PyStr, i.isSome = true → (allIds st).count i ≤ 1) →
      (perform_auto_switch doq refr sA true st tid).1 = true →
      (allIds (perform_auto_switch doq refr sA true st tid).2).count (some ctid) = 1 ∧
      (allIds (perform_auto_switch doq refr sA true st tid).2).count (some oa.id) = 1 ∧
      ∀ i : Option PyStr, i.isSome = true →
        (allIds (perform_auto_switch doq refr sA true st tid).2).count i ≤ 1) ∧
    (∀ doq refr busy confirmed saveNew sA st tid oa ctid,
      st.active = some oa → oa.id ≠ [] → tid = some ctid →
      (∀ i : Option PyStr, i.isSome = true → (allIds st).count i ≤ 1) →
      (manual_switch doq refr busy confirmed saveNew sA true st tid).1 = true →
      (allIds (manual_switch doq refr busy confirmed saveNew sA true st tid).2).count
        (some ctid) = 1 ∧
      (allIds (manual_switch doq refr busy confirmed saveNew sA true st tid).2).count
        (some oa.id) = 1 ∧
      ∀ i : Option PyStr, i.isSome = true →
        (allIds (manual_switch doq refr busy confirmed saveNew sA true st tid).2).count
          i ≤ 1) :=
  ⟨fun doq refr sA st tid oa ctid h1 h2 h3 h4 h5 =>
      perform_switch_id_invariant doq refr sA st tid oa ctid h1 h2 h3 h4 h5,
   fun doq refr busy confirmed saveNew sA st tid oa ctid h1 h2 h3 h4 h5 =>
      manual_switch_id_invariant doq refr busy confirmed saveNew sA st tid oa ctid
        h1 h2 h3 h4 h5⟩

/-- The Active credential of the C3 witness run. -/
def oaW : ActiveTok :=
  { id := "A".data, refresh_token := "ART".data, access_token := "AAT".data }

/-- The reserve credential promoted in the C3 witness run. -/
def tokB : BToken :=
  { id := some "B".data, refresh_token := "BRT".data, access_token := "BAT".data,
    status := none, ratioQ := none }

/-- The starting state of the C3 witness run. -/
def stW : MgrState := { pool := [tokB], active := some oaW, inflight := false }

/-- A usage oracle reporting a half-used quota. -/
def doqHalf : PyStr → ℚ × Option UsageInfo := fun _ => (mkRat 1 2, none)

/-- An import line `rtX----atX`. -/
def lineX : PyStr := "rtX----atX".data

/-- An import line `rt1----at1`. -/
def line1 : PyStr := "rt1----at1".data

/-- A pre-existing pool entry for the import scenarios. -/
def tokA : BToken :=
  { id := some "A".data, refresh_token := "rtA".data, access_token := [],
    status := none, ratioQ := none }

/-- Witness for C3: on a concrete two-credential state, both the automatic
and the confirmed manual promotion leave exactly one credential with the
promoted id `"B"` and exactly one with the demoted id `"A"`. -/
theorem C3_witness :
    ((allIds (perform_auto_switch doqHalf refrNone true true stW
        (some "B".data)).2).count (some "B".data) = 1 ∧
      (allIds (perform_auto_switch doqHalf refrNone true true stW
        (some "B".data)).2).count (some "A".data) = 1) ∧
    ((allIds (manual_switch doqHalf refrNone false true true true true stW
        (some "B".data)).2).count (some "B".data) = 1 ∧
      (allIds (manual_switch doqHalf refrNone false true true true true stW
        (some "B".data)).2).count (some "A".data) = 1) := by
  have hdist : ∀ i : Option PyStr, i.isSome = true → (allIds stW).count i ≤ 1 := by
    intro i _
    have hAll : allIds stW = [some "A".data, some "B".data] := by decide
    rw [hAll]
    by_cases h1 : i = some "A".data
    · subst h1
      decide
    · by_cases h2 : i = some "B".data
      · subst h2
        decide
      · have c1 : List.count i [some "A".data, some "B".data] = 0 := by
          rw [List.count_eq_zero]
          simp [h1, h2]
        omega
  have h1 := C3_theorem.1 doqHalf refrNone true stW (some "B".data) oaW "B".data
    rfl (by decide) rfl hdist (by decide)
  have h2 := C3_theorem.2 doqHalf refrNone false true true true stW (some "B".data)
    oaW "B".data rfl (by decide) rfl hdist (by decide)
  exact ⟨⟨h1.1, h1.2.1⟩, ⟨h2.1, h2.2.1⟩⟩

/-! ## Claim theorems: import (C6, C7) -/

theorem importStep_shape (base : Nat) (acc : List BToken × Nat × Nat) (line : PyStr) :
    (importStep base acc line).1 = acc.1 ∨
    ∃ p0 atk idv, (∀ t ∈ acc.1, pyStrip t.refresh_token ≠ pyStrip p0) ∧
      pyStrip p0 ≠ [] ∧
      (importStep base acc line).1 = acc.1 ++
        [{ id := idv, refresh_token := pyStrip p0, access_token := atk,
           status := some "active".data, ratioQ := none }] := by
  by_cases hl : pyStrip line = []
  · left
    simp [importStep, hl]
  · rcases hsp : pySplit impSep (pyStrip line) with _ | ⟨p0, ps⟩
    · left
      simp [importStep, hl, hsp]
    · rcases ps with _ | ⟨p1, ps2⟩
      · left
        simp [importStep, hl, hsp]
      · by_cases hc : (pyStrip p0 ≠ [] ∧ ∀ t ∈ acc.1, pyStrip t.refresh_token ≠ pyStrip p0)
        · right
          refine ⟨p0, pyStrip p1, some (toString (base + acc.2.1)).data, hc.2, hc.1, ?_⟩
          simp only [importStep]
          rw [if_neg hl]
          simp only [hsp]
          rw [if_pos hc]
        · left
          simp only [importStep, hl, hsp, if_false]
          rw [if_neg hc]
          split <;> rfl

theorem importStep_good (base : Nat) (acc : List BToken × Nat × Nat) (line : PyStr)
    (h : GoodPool acc.1) : GoodPool (importStep base acc line).1 := by
  rcases importStep_shape base acc line with hs | ⟨p0, atk, idv, hnone, hne, hs⟩
  · rw [hs]
    exact h
  · rw [hs, GoodPool, List.pairwise_append]
    refine ⟨h, List.pairwise_singleton _ _, ?_⟩
    intro a ha b hb
    simp only [List.mem_singleton] at hb
    subst hb
    intro hab
    exact absurd (by rw [hab, pyStrip_idem] :
      pyStrip a.refresh_token = pyStrip p0) (hnone a ha)

theorem foldl_import_good (base : Nat) (lines : List PyStr) :
    ∀ acc : List BToken × Nat × Nat, GoodPool acc.1 →
      GoodPool (lines.foldl (importStep base) acc).1 := by
  induction lines with
  | nil => exact fun acc h => h
  | cons l ls ih =>
      intro acc h
      rw [List.foldl_cons]
      exact ih _ (importStep_good base acc l h)

theorem foldl_import_append (base : Nat) (lines : List PyStr) :
    ∀ acc : List BToken × Nat × Nat,
      ∃ s, (lines.foldl (importStep base) acc).1 = acc.1 ++ s := by
  induction lines with
  | nil => exact fun acc => ⟨[], (List.append_nil acc.1).symm⟩
  | cons l ls ih =>
      intro acc
      rw [List.foldl_cons]
      obtain ⟨s1, hs1⟩ := ih (importStep base acc l)
      rcases importStep_shape base acc l with hs | ⟨p0, atk, idv, _, _, hs⟩
      · exact ⟨s1, by rw [hs1, hs]⟩
      · refine ⟨[{ id := idv, refresh_token := pyStrip p0, access_token := atk,
                   status := some "active".data, ratioQ := none }] ++ s1, ?_⟩
        rw [hs1, hs, List.append_assoc]

/-- Claim C6: `do_import` preserves the invariant that no two Reserve-Pool
entries share the same non-empty `refresh_token` (duplicates are
suppressed against the existing pool and within the batch), and importing
two lines with an identical `refreshToken` yields exactly one `added` and
one `skipped`. -/
theorem C6_theorem :
    (∀ base tokens lines, GoodPool tokens → GoodPool (do_import base tokens lines).1) ∧
    (do_import 1000 [] [lineX, lineX]).2 = (1, 1) :=
  ⟨fun base tokens lines h => foldl_import_good base lines (tokens, 0, 0) h, by decide⟩

/-- Witness for C6: importing `rt1----at1` into a pool already holding
`rtA` keeps the no-duplicate invariant. -/
theorem C6_witness : GoodPool (do_import 5 [tokA] [line1]).1 :=
  C6_theorem.1 5 [tokA] [line1] (by unfold GoodPool; exact List.pairwise_singleton _ _)

/-- Claim C7, counterexample: importing `rt1----at1` into the pool
`[tokA]` leaves `tokA` at the front and places the newly accepted
credential at the END of the pool — `do_import` appends
(`tokens.append`), it does not insert at the front. -/
theorem C7_counterexample :
    (do_import 5 [tokA] [line1]).1.head? = some tokA ∧
    tokA.refresh_token ≠ "rt1".data ∧
    ∃ t ∈ (do_import 5 [tokA] [line1]).1, t.refresh_token = "rt1".data := by
  decide

/-- Claim C7 (amended): credentials accepted by Import are appended at the
END of the Reserve Pool (the prior pool is a prefix of the result), while
a credential demoted from the Active slot during a promotion and not
already present in the pool is inserted at the front. -/
theorem C7_theorem :
    (∀ base tokens lines, ∃ s, (do_import base tokens lines).1 = tokens ++ s) ∧
    (∀ oa tokens, oa.id ≠ [] → (∀ t ∈ tokens, t.id ≠ some oa.id) →
      demoteOld (some oa) tokens = demotedTok oa :: tokens) :=
  ⟨fun base tokens lines => foldl_import_append base lines (tokens, 0, 0),
   fun _ _ hne h => demoteOld_not_found hne h⟩

/-- Witness for C7: the concrete import of `rt1----at1` extends `[tokA]`
on the right, and demoting the Active credential `A` into `[tokB]` puts
it at the front. -/
theorem C7_witness :
    (∃ s, (do_import 5 [tokA] [line1]).1 = [tokA] ++ s) ∧
    demoteOld (some oaW) [tokB] = demotedTok oaW :: [tokB] :=
  ⟨C7_theorem.1 5 [tokA] [line1],
   C7_theorem.2 oaW [tokB] (by decide) (by decide)⟩

/-! ## Filesystem and document lemmas (towards C8, C9) -/

theorem fsGet_fsSet_same (fs : FS) (p : PyStr) (d : FsDoc) :
    fsGet (fsSet fs p d) p = some d := by
  induction fs with
  | nil => simp [fsSet, fsGet]
  | cons e rest ih =>
      by_cases h : e.1 = p
      · simp [fsSet, fsGet, h]
      · simp [fsSet, fsGet, h, ih]

theorem fsGet_fsErase_same (fs : FS) (p : PyStr) : fsGet (fsErase fs p) p = none := by
  induction fs with
  | nil => rfl
  | cons e rest ih =>
      rw [fsErase]
      by_cases h : e.1 = p
      · rw [if_pos h]
        exact ih
      · rw [if_neg h, fsGet, if_neg h]
        exact ih

theorem fsGet_fsErase_other (fs : FS) (p q : PyStr) (h : q ≠ p) :
    fsGet (fsErase fs p) q = fsGet fs q := by
  induction fs with
  | nil => rfl
  | cons e rest ih =>
      rw [fsErase]
      by_cases he : e.1 = p
      · have hq : ¬ e.1 = q := by
          rw [he]
          exact fun hh => h hh.symm
        rw [if_pos he, fsGet, if_neg hq]
        exact ih
      · rw [if_neg he, fsGet, fsGet]
        by_cases hq : e.1 = q
        · rw [if_pos hq, if_pos hq]
        · rw [if_neg hq, if_neg hq]
          exact ih

theorem fsGet_fsSet_other (fs : FS) (p q : PyStr) (d : FsDoc) (h : q ≠ p) :
    fsGet (fsSet fs p d) q = fsGet fs q := by
  have hpq : ¬ p = q := fun hh => h hh.symm
  induction fs with
  | nil =>
      show (if p = q then some d else fsGet [] q) = fsGet [] q
      rw [if_neg hpq]
  | cons e rest ih =>
      obtain ⟨e1, e2⟩ := e
      show fsGet (if e1 = p then (p, d) :: rest else (e1, e2) :: fsSet rest p d) q =
        fsGet ((e1, e2) :: rest) q
      by_cases he : e1 = p
      · rw [if_pos he]
        show (if p = q then some d else fsGet rest q) = fsGet ((e1, e2) :: rest) q
        rw [if_neg hpq]
        show fsGet rest q = (if e1 = q then some e2 else fsGet rest q)
        rw [if_neg (by rw [he]; exact hpq)]
      · rw [if_neg he]
        show (if e1 = q then some e2 else fsGet (fsSet rest p d) q) =
          (if e1 = q then some e2 else fsGet rest q)
        rw [ih]

theorem tmpPath_ne (p : PyStr) : tmpPath p ≠ p := by
  intro h
  have hl := congrArg List.length h
  simp [tmpPath] at hl

theorem getKey_setKey_same (d : Doc) (k : PyStr) (v : JVal) :
    getKey (setKey d k v) k = some v := by
  induction d with
  | nil =>
      show (if k = k then some v else getKey [] k) = some v
      rw [if_pos rfl]
  | cons e rest ih =>
      obtain ⟨e1, e2⟩ := e
      show getKey (if e1 = k then (k, v) :: rest else (e1, e2) :: setKey rest k v) k =
        some v
      by_cases h : e1 = k
      · rw [if_pos h]
        show (if k = k then some v else getKey rest k) = some v
        rw [if_pos rfl]
      · rw [if_neg h]
        show (if e1 = k then some e2 else getKey (setKey rest k v) k) = some v
        rw [if_neg h, ih]

theorem getKey_setKey_other (d : Doc) (k : PyStr) (v : JVal) (q : PyStr)
    (h : q ≠ k) : getKey (setKey d k v) q = getKey d q := by
  have hkq : ¬ k = q := fun hh => h hh.symm
  induction d with
  | nil =>
      show (if k = q then some v else getKey [] q) = getKey [] q
      rw [if_neg hkq]
  | cons e rest ih =>
      obtain ⟨e1, e2⟩ := e
      show getKey (if e1 = k then (k, v) :: rest else (e1, e2) :: setKey rest k v) q =
        getKey ((e1, e2) :: rest) q
      by_cases he : e1 = k
      · rw [if_pos he]
        show (if k = q then some v else getKey rest q) =
          (if e1 = q then some e2 else getKey rest q)
        rw [if_neg hkq, if_neg (by rw [he]; exact hkq)]
      · rw [if_neg he]
        show (if e1 = q then some e2 else getKey (setKey rest k v) q) =
          (if e1 = q then some e2 else getKey rest q)
        rw [ih]

/-! ## Claim theorems: persistence (C8, C9) -/

/-- An empty filesystem for the persistence scenarios. -/
def fsEx : FS := []

/-- Claim C8, counterexample: with failure injected into the write,
`atomic_write_json` itself reports `false`, yet the caller of
`save_backup_tokens` (`SaveReserve`) observes exactly the same value `()`
as in the success case — the failure boolean is discarded, not surfaced
to the caller as the claim states. -/
theorem C8_counterexample :
    (atomic_write_json true false fsEx tokensFile (.arr [tokA])).1 = false ∧
    (save_backup_tokens true false fsEx [tokA]).1 =
      (save_backup_tokens false false fsEx [tokA]).1 := by
  exact ⟨rfl, rfl⟩

/-- Claim C8 (amended): `atomic_write_json` surfaces every injected write
failure as the boolean `false`, discards the temporary file and leaves the
target document unchanged (no partial document is observable), and
`save_active_token` (`SaveActive`) propagates that boolean; but
`save_backup_tokens` (`SaveReserve`) returns `None`, so its caller cannot
observe a failure. -/
theorem C8_theorem :
    (∀ fw fr fs path data, fw = true ∨ fr = true →
      (atomic_write_json fw fr fs path data).1 = false ∧
      fsGet (atomic_write_json fw fr fs path data).2 path = fsGet fs path ∧
      fsGet (atomic_write_json fw fr fs path data).2 (tmpPath path) = none) ∧
    (∀ fw fr fs tok, fw = true ∨ fr = true →
      (save_active_token fw fr fs tok).1 = false) ∧
    (∀ fw fr fs tokens,
      (save_backup_tokens fw fr fs tokens).1 =
        (save_backup_tokens false false fs tokens).1) := by
  have hbase : ∀ fw fr fs path data, fw = true ∨ fr = true →
      (atomic_write_json fw fr fs path data).1 = false ∧
      fsGet (atomic_write_json fw fr fs path data).2 path = fsGet fs path ∧
      fsGet (atomic_write_json fw fr fs path data).2 (tmpPath path) = none := by
    intro fw fr fs path data h
    cases hfw : fw with
    | true =>
        refine ⟨rfl, ?_, ?_⟩
        · exact fsGet_fsErase_other fs (tmpPath path) path (Ne.symm (tmpPath_ne path))
        · exact fsGet_fsErase_same fs (tmpPath path)
    | false =>
        cases hfr : fr with
        | true =>
            refine ⟨rfl, ?_, ?_⟩
            · rw [show (atomic_write_json false true fs path data).2 =
                  fsErase (fsSet fs (tmpPath path) data) (tmpPath path) from rfl]
              rw [fsGet_fsErase_other _ _ _ (Ne.symm (tmpPath_ne path))]
              exact fsGet_fsSet_other fs (tmpPath path) path data
                (Ne.symm (tmpPath_ne path))
            · exact fsGet_fsErase_same _ (tmpPath path)
        | false =>
            rw [hfw, hfr] at h
            rcases h with h | h <;> cases h
  refine ⟨hbase, ?_, ?_⟩
  · intro fw fr fs tok h
    unfold save_active_token
    rcases fsGet fs authFile with _ | doc
    · exact (hbase fw fr fs authFile _ h).1
    · rcases doc with d | ts
      · exact (hbase fw fr fs authFile _ h).1
      · rfl
  · intro fw fr fs tokens
    rfl

/-- Witness for C8: a concrete failing write reports `false`, leaves the
target absent as before and no temporary file behind, and a concrete
failing `save_active_token` reports `false`. -/
theorem C8_witness :
    ((atomic_write_json true false fsEx tokensFile (.arr [tokA])).1 = false ∧
      fsGet (atomic_write_json true false fsEx tokensFile (.arr [tokA])).2 tokensFile =
        fsGet fsEx tokensFile ∧
      fsGet (atomic_write_json true false fsEx tokensFile (.arr [tokA])).2
        (tmpPath tokensFile) = none) ∧
    (save_active_token true false fsEx tokB).1 = false :=
  ⟨C8_theorem.1 true false fsEx tokensFile (.arr [tokA]) (Or.inl rfl),
   C8_theorem.2.1 true false fsEx tokB (Or.inl rfl)⟩

/-- Claim C9: on an existing on-disk Active document, a successful
`save_active_token` updates exactly the `access_token`, `refresh_token`
and `id` fields and leaves every other field of the document unchanged. -/
theorem C9_theorem (fs : FS) (d : Doc) (tok : BToken) (k : PyStr)
    (hauth : fsGet fs authFile = some (.obj d))
    (h1 : k ≠ "access_token".data) (h2 : k ≠ "refresh_token".data)
    (h3 : k ≠ "id".data) :
    (save_active_token false false fs tok).1 = true ∧
    ∃ d2, fsGet (save_active_token false false fs tok).2 authFile = some (.obj d2) ∧
      getKey d2 k = getKey d k ∧
      getKey d2 "access_token".data = some (.s tok.access_token) ∧
      getKey d2 "refresh_token".data = some (.s tok.refresh_token) ∧
      getKey d2 "id".data = some (.s (tok.id.getD [])) := by
  have heq : save_active_token false false fs tok =
      (true, fsSet (fsErase fs (tmpPath authFile)) authFile
        (.obj (setKey (setKey (setKey d "access_token".data (.s tok.access_token))
          "refresh_token".data (.s tok.refresh_token)) "id".data
          (.s (tok.id.getD []))))) := by
    unfold save_active_token
    rw [hauth]
    rfl
  rw [heq]
  refine ⟨rfl, _, fsGet_fsSet_same _ _ _, ?_, ?_, ?_, ?_⟩
  · rw [getKey_setKey_other _ _ _ _ h3, getKey_setKey_other _ _ _ _ h2,
      getKey_setKey_other _ _ _ _ h1]
  · rw [getKey_setKey_other _ _ _ _ (by decide), getKey_setKey_other _ _ _ _ (by decide)]
    exact getKey_setKey_same _ _ _
  · rw [getKey_setKey_other _ _ _ _ (by decide)]
    exact getKey_setKey_same _ _ _
  · exact getKey_setKey_same _ _ _

/-- The on-disk Active document of the C9 witness, holding a foreign field
`x`. -/
def docW : Doc := [("x".data, .s "v".data), ("access_token".data, .s "old".data)]

/-- The filesystem of the C9 witness. -/
def fsW : FS := [(authFile, .obj docW)]

/-- Witness for C9: updating the Active document on a concrete filesystem
rewrites the three credential fields and leaves the foreign field `x`
untouched. -/
theorem C9_witness :
    (save_active_token false false fsW tokB).1 = true ∧
    ∃ d2, fsGet (save_active_token false false fsW tokB).2 authFile = some (.obj d2) ∧
      getKey d2 "x".data = getKey docW "x".data ∧
      getKey d2 "access_token".data = some (.s tokB.access_token) ∧
      getKey d2 "refresh_token".data = some (.s tokB.refresh_token) ∧
      getKey d2 "id".data = some (.s (tokB.id.getD [])) :=
  C9_theorem fsW docW tokB "x".data rfl (by decide) (by decide) (by decide)

end TokenMgr
